import Mathlib

/-!
# Verification of `golang-sql/table`

A shallow embedding of the `table` package: result-set ingestion
(`FillSet` from `tablebuffer.go`), the table/row data model, the
name-based accessors (`Buffer.Get`, `Row.Get`), and the struct
reconciliation pass (`BufferToStruct` from `struct.go`, current
revision with `sql` tag handling and unused-field reporting).

Machine values are modelled by a small closed universe of runtime
types; Go panics (reflect `Set` mismatches, slice index panics) are
modelled as `Except.error` outcomes so that they are observable.
-/

/-- The closed universe of runtime value types used by the model. -/
inductive Ty where
  | tInt64
  | tStr
  | tBool
  deriving DecidableEq, Repr

/-- A buffered field value (`interface{}` in the source); `vNull` is the
untyped nil interface. -/
inductive Value where
  | vInt64 (n : Int)
  | vStr (s : String)
  | vBool (b : Bool)
  | vNull
  deriving DecidableEq, Repr

/-- Runtime type of a value; `none` for the nil interface. -/
def Value.ty? : Value → Option Ty
  | .vInt64 _ => some .tInt64
  | .vStr _ => some .tStr
  | .vBool _ => some .tBool
  | .vNull => none

/-- Go zero value of each declared field type. -/
def Ty.zero : Ty → Value
  | .tInt64 => .vInt64 0
  | .tStr => .vStr ""
  | .tBool => .vBool false

/-- Errors and panics observable from the package.  Panic outcomes
(`outOfRange` for a slice index panic, `typeMismatch` for the
`reflect.Value.Set` assignability panic) are folded into the same error
type so that theorems can talk about them. -/
inductive GoError where
  /-- An error produced by the driver (`rows.Columns` / `rows.Scan`). -/
  | ioErr (msg : String)
  /-- `sql: expected n destination arguments in Scan, not m`. -/
  | scanArity (want got : Nat)
  /-- `invalid type kind, expected struct, got k`. -/
  | invalidKind (kind : String)
  /-- `unused fields in struct [...]` (from `errors.Join` of the one
  report the constant policy enables). -/
  | unusedStructFields (names : List String)
  /-- `unused fields in query [...]` (never produced: policy const is false). -/
  | unusedBufferColumns (names : List String)
  /-- `reflect.Set: value of type A is not assignable to type B`;
  records only the expected and the actual type. -/
  | typeMismatch (expected : Ty) (actual : Option Ty)
  /-- A bare runtime index-out-of-range panic. -/
  | outOfRange
  /-- `Table doesn't have column named "c"`. -/
  | indexName (name : String)
  /-- `Table has n rows, requested index r`. -/
  | indexRow (length : Nat) (requested : Int)
  deriving DecidableEq, Repr

/-- `map[string]int` as an association list; later insertions win. -/
def mapLookup (m : List (String × Nat)) (k : String) : Option Nat :=
  match m with
  | [] => none
  | p :: rest =>
    match mapLookup rest k with
    | some v => some v
    | none => if p.1 = k then some p.2 else none

/-- `for i, n := range cols { m[n] = i }` starting at index `i`. -/
def buildIndexFrom (i : Nat) : List String → List (String × Nat)
  | [] => []
  | c :: rest => (c, i) :: buildIndexFrom (i + 1) rest

/-- The column-name index built by `FillSet`: name ↦ ordinal,
last-write-wins for duplicated names. -/
def buildIndex (cols : List String) : List (String × Nat) :=
  buildIndexFrom 0 cols

/-- `Row` holds field level data plus the shared column index. -/
structure Row where
  columnNameIndex : List (String × Nat)
  Field : List Value
  deriving DecidableEq, Repr

/-- `Buffer` is one result set in memory. -/
structure Buffer where
  Columns : List String
  Rows : List Row
  columnNameIndex : List (String × Nat)
  deriving DecidableEq, Repr

/-- `&Buffer{Rows: make([]Row, 0, 10)}`: the fresh table value. -/
def Buffer.empty : Buffer := ⟨[], [], []⟩

/-- The invariant maintained by the package's constructors: the index
is the one built from `Columns`, and every row is as wide as `Columns`
and shares that index. -/
def Buffer.WF (b : Buffer) : Prop :=
  b.columnNameIndex = buildIndex b.Columns ∧
    ∀ r ∈ b.Rows, r.Field.length = b.Columns.length ∧
      r.columnNameIndex = b.columnNameIndex

instance (b : Buffer) : Decidable b.WF := by
  unfold Buffer.WF; infer_instance

instance {ε α : Type} [DecidableEq ε] [DecidableEq α] :
    DecidableEq (Except ε α) := fun x y =>
  match x, y with
  | .ok a, .ok b =>
    if h : a = b then .isTrue (by rw [h])
    else .isFalse (by intro hc; cases hc; exact h rfl)
  | .error a, .error b =>
    if h : a = b then .isTrue (by rw [h])
    else .isFalse (by intro hc; cases hc; exact h rfl)
  | .ok _, .error _ => .isFalse (by intro hc; cases hc)
  | .error _, .ok _ => .isFalse (by intro hc; cases hc)

/-- One result set exposed by a `*sql.Rows` cursor: the outcome of
`rows.Columns()` (queried at the first record), and the outcome of each
`rows.Next`/`rows.Scan` step. -/
structure ResultSet where
  colsRes : Except GoError (List String)
  recs : List (Except GoError (List Value))
  deriving DecidableEq, Repr

/-- `rows.Scan(dest...)`: succeeds only when the driver record has
exactly as many values as there are destinations. -/
def scanRec (colCount : Nat) (r : Except GoError (List Value)) :
    Except GoError (List Value) :=
  match r with
  | .error e => .error e
  | .ok vs => if vs.length = colCount then .ok vs else .error (.scanArity colCount vs.length)

/-- The `for rows.Next()` body after column discovery: scan each record
and append it as a `Row` carrying the shared index. -/
def fillRows (cols : List String) (idx : List (String × Nat))
    (acc : List Row) : List (Except GoError (List Value)) →
    List Row × Option GoError
  | [] => (acc, none)
  | r :: rest =>
    match scanRec cols.length r with
    | .error e => (acc, some e)
    | .ok vs => fillRows cols idx (acc ++ [⟨idx, vs⟩]) rest

/-- One iteration of the outer `FillSet` loop: drain the current result
set into a fresh table.  Column discovery happens at the first record;
a result set with no records leaves the table empty. -/
def processRS (rs : ResultSet) : Buffer × Option GoError :=
  match rs.recs with
  | [] => (Buffer.empty, none)
  | _ :: _ =>
    match rs.colsRes with
    | .error e => (Buffer.empty, some e)
    | .ok cols =>
      let idx := buildIndex cols
      let (rows, err) := fillRows cols idx [] rs.recs
      ({ Columns := cols, Rows := rows, columnNameIndex := idx }, err)

/-- The outer `FillSet` loop: on an error the current (possibly
partially filled) table is not appended; otherwise it is appended and,
while `rows.NextResultSet()` reports another set, a fresh table is
started. -/
def fillSetAux (set : List Buffer) : List ResultSet →
    List Buffer × Option GoError
  | [] => (set, none)
  | rs :: rest =>
    match processRS rs with
    | (_, some e) => (set, some e)
    | (table, none) => fillSetAux (set ++ [table]) rest

/-- `FillSet` over a cursor described as its list of result sets (a
live cursor always exposes at least one, possibly empty, result set). -/
def FillSet (cursor : List ResultSet) : List Buffer × Option GoError :=
  fillSetAux [] cursor

/-- A result set the cursor can fully drain without error: either no
records, or readable columns and every record scanning with the right
arity. -/
def ResultSet.clean (rs : ResultSet) : Bool :=
  rs.recs.isEmpty ||
    (match rs.colsRes with
     | .ok cols =>
       rs.recs.all fun r =>
         match r with
         | .ok vs => vs.length = cols.length
         | .error _ => false
     | .error _ => false)

/-- The values a clean record carries (junk on the error case, which a
clean result set excludes). -/
def okValD : Except GoError (List Value) → List Value
  | .ok vs => vs
  | .error _ => []

/-- `func (t *Buffer) Get(rowIndex int, columnName string)`: column name
is resolved first; a requested index at or past the row count panics
with the row `IndexError`; the remaining slice accesses can only panic
(bare range error) on a negative index or a malformed buffer. -/
def Buffer.Get (t : Buffer) (rowIndex : Int) (columnName : String) :
    Except GoError Value :=
  match mapLookup t.columnNameIndex columnName with
  | none => .error (.indexName columnName)
  | some i =>
    if (t.Rows.length : Int) ≤ rowIndex then
      .error (.indexRow t.Rows.length rowIndex)
    else
      match (if 0 ≤ rowIndex then t.Rows[rowIndex.toNat]? else none) with
      | none => .error .outOfRange
      | some row =>
        match row.Field[i]? with
        | none => .error .outOfRange
        | some v => .ok v

/-- `func (r Row) Get(columnName string)`. -/
def Row.Get (r : Row) (columnName : String) : Except GoError Value :=
  match mapLookup r.columnNameIndex columnName with
  | none => .error (.indexName columnName)
  | some i =>
    match r.Field[i]? with
    | none => .error .outOfRange
    | some v => .ok v

/-- One field of the target struct type: declared name, optional
`sql:"..."` tag, declared type. -/
structure StructField where
  name : String
  tag : Option String
  ty : Ty
  deriving DecidableEq, Repr

/-- The target type handed to `BufferToStruct[T]`: a struct with its
field list, or some other kind (named by its kind string). -/
inductive GoType where
  | strct (fields : List StructField)
  | nonStruct (kind : String)
  deriving DecidableEq, Repr

/-- Pair each element with its position, starting at `i`
(`for i := 0; i < tp.NumField(); i++`). -/
def enumFrom (i : Nat) : List α → List (Nat × α)
  | [] => []
  | a :: rest => (i, a) :: enumFrom (i + 1) rest

/-- `lookup[index] = i`: a write past the slice length is a runtime
index panic in Go, modelled as `outOfRange`. -/
def setAt (l : List (Option Nat)) (i : Nat) (v : Nat) :
    Except GoError (List (Option Nat)) :=
  if i < l.length then .ok (l.set i (some v)) else .error .outOfRange

/-- `reportUnmatchedStruct`: struct fields matching no column are
collected and reported. -/
def reportUnmatchedStruct : Bool := true

/-- `reportUnmatchedBuffer`: buffered columns matching no field are
not reported. -/
def reportUnmatchedBuffer : Bool := false

/-- The diagnostic identifier recorded for an unmatched field:
`name(tag=value)` when a non-empty tag was present, else the name. -/
def missingName (fname : String) (tag : Option String) : String :=
  match tag with
  | some t => if t.length > 0 then s!"{fname}(tag={t})" else fname
  | none => fname

/-- The field-lookup setup loop of `BufferToStruct`: tag `"-"` skips
the field; a present tag is looked up (no fallback to the name); an
absent tag falls back to the declared field name; unmatched fields are
recorded in order when the policy is on. -/
def bindFields (colMap : List (String × Nat)) :
    List (Nat × StructField) → List (Option Nat) → List String →
    Except GoError (List (Option Nat) × List String)
  | [], lookup, missing => .ok (lookup, missing)
  | (i, sf) :: rest, lookup, missing =>
    match sf.tag with
    | some tag =>
      if tag = "-" then bindFields colMap rest lookup missing
      else
        match mapLookup colMap tag with
        | some index =>
          match setAt lookup index i with
          | .error e => .error e
          | .ok lookup => bindFields colMap rest lookup missing
        | none =>
          bindFields colMap rest lookup
            (if reportUnmatchedStruct then
              missing ++ [missingName sf.name (some tag)] else missing)
    | none =>
      match mapLookup colMap sf.name with
      | some index =>
        match setAt lookup index i with
        | .error e => .error e
        | .ok lookup => bindFields colMap rest lookup missing
      | none =>
        bindFields colMap rest lookup
          (if reportUnmatchedStruct then
            missing ++ [missingName sf.name none] else missing)

/-- The whole binding pass as invoked by `BufferToStruct`: a lookup
slice with one slot per buffered column, all initialized to no-match. -/
def bindingOf (fields : List StructField) (buf : Buffer) :
    Except GoError (List (Option Nat) × List String) :=
  bindFields buf.columnNameIndex (enumFrom 0 fields)
    (List.replicate buf.Columns.length none) []

/-- The unmatched-buffer-column sweep (dead under the current policy
constant, kept for fidelity). -/
def collectMissingBuffer (buf : Buffer) (lookup : List (Option Nat)) :
    List String :=
  (enumFrom 0 lookup).filterMap fun p =>
    match p.2 with
    | some _ => none
    | none =>
      match buf.Columns[p.1]? with
      | some cname => if cname = "" then none else some cname
      | none => none

/-- `make([]T, ...)` element: the zero value of each declared field. -/
def zeroStruct (fields : List StructField) : List Value :=
  fields.map fun f => f.ty.zero

/-- The inner copy loop `for bufIndex, structIndex := range lookup`:
no-match slots are skipped; `rv.Field(structIndex)` and
`row.Field[bufIndex]` panics are `outOfRange`; `rf.Set` panics with the
assignability mismatch, performing no conversion. -/
def copyRowAux (fields : List StructField) (rowF : List Value) :
    List (Option Nat) → Nat → List Value → Except GoError (List Value)
  | [], _, sv => .ok sv
  | none :: rest, bufIndex, sv => copyRowAux fields rowF rest (bufIndex + 1) sv
  | some si :: rest, bufIndex, sv =>
    match fields[si]? with
    | none => .error .outOfRange
    | some sf =>
      match rowF[bufIndex]? with
      | none => .error .outOfRange
      | some fv =>
        if fv.ty? = some sf.ty then
          copyRowAux fields rowF rest (bufIndex + 1) (sv.set si fv)
        else .error (.typeMismatch sf.ty fv.ty?)

/-- The outer copy loop `for i, row := range buf.Rows`. -/
def copyRows (fields : List StructField) (lookup : List (Option Nat)) :
    List Row → Except GoError (List (List Value))
  | [] => .ok []
  | r :: rest =>
    match copyRowAux fields r.Field lookup 0 (zeroStruct fields) with
    | .error e => .error e
    | .ok sv =>
      match copyRows fields lookup rest with
      | .error e => .error e
      | .ok svs => .ok (sv :: svs)

/-- `BufferToStruct[T]`: kind check, binding pass, unused-field report
(`reportUnmatchedBuffer` is false, so `errors.Join` reduces to the
single struct-side report), then the value copy. -/
def BufferToStruct (tp : GoType) (buf : Buffer) :
    Except GoError (List (List Value)) :=
  match tp with
  | .nonStruct kind => .error (.invalidKind kind)
  | .strct fields =>
    match bindingOf fields buf with
    | .error e => .error e
    | .ok (lookup, missingStruct) =>
      let missingBuffer :=
        if reportUnmatchedBuffer then collectMissingBuffer buf lookup else []
      if missingStruct ≠ [] then .error (.unusedStructFields missingStruct)
      else if missingBuffer ≠ [] then
        .error (.unusedBufferColumns missingBuffer)
      else copyRows fields lookup buf.Rows

/-- Modelled from the spec's binding-priority wording (for comparison
with the code's `bindFields`): the decision taken for one field. -/
inductive Decision where
  | ignored
  | bound (col : Nat)
  | unused (report : String)
  deriving DecidableEq, Repr

/-- Modelled from the spec: per-field priority — the ignore sentinel
skips the field; an explicit annotation is looked up in the column
index; only a field without an annotation falls back to its declared
name; a field no lookup resolves is reported unused. -/
def fieldDecision (colMap : List (String × Nat)) (sf : StructField) :
    Decision :=
  match sf.tag with
  | some t =>
    if t = "-" then .ignored
    else
      match mapLookup colMap t with
      | some c => .bound c
      | none => .unused (missingName sf.name (some t))
  | none =>
    match mapLookup colMap sf.name with
    | some c => .bound c
    | none => .unused (missingName sf.name none)

/-- Modelled from the spec: the field-lookup table that the per-field
decisions produce, fields processed in declaration order. -/
def specLookup (n : Nat) (colMap : List (String × Nat))
    (fields : List StructField) : List (Option Nat) :=
  (enumFrom 0 fields).foldl
    (fun l p =>
      match fieldDecision colMap p.2 with
      | .bound c => l.set c (some p.1)
      | _ => l)
    (List.replicate n none)

/-- The unused-report entry a field contributes, if any. -/
def unusedOf (colMap : List (String × Nat)) (sf : StructField) :
    Option String :=
  match fieldDecision colMap sf with
  | .unused s => some s
  | _ => none

/-- Modelled from the spec: every non-ignored field that no lookup
resolves, in declaration order, under its diagnostic identifier. -/
def specUnused (colMap : List (String × Nat))
    (fields : List StructField) : List String :=
  fields.filterMap (unusedOf colMap)

/-- Position of the last slot of `l` holding `some j`, if any. -/
def lastIdx : List (Option Nat) → Nat → Option Nat
  | [], _ => none
  | e :: rest, j =>
    match lastIdx rest j with
    | some c => some (c + 1)
    | none => if e = some j then some 0 else none

/-- Column list a clean result set settles on: empty when it has no
records (discovery never runs), otherwise the cursor's reported list. -/
def colsOf (rs : ResultSet) : List String :=
  match rs.recs, rs.colsRes with
  | [], _ => []
  | _ :: _, .ok cols => cols
  | _ :: _, .error _ => []

/-- Rows a clean result set ingests. -/
def rowsOf (rs : ResultSet) : List Row :=
  rs.recs.map fun r => ⟨buildIndex (colsOf rs), okValD r⟩

theorem mapLookup_mem {m : List (String × Nat)} {k : String} {v : Nat}
    (h : mapLookup m k = some v) : (k, v) ∈ m := by
  induction m with
  | nil => simp [mapLookup] at h
  | cons p rest ih =>
    rw [mapLookup] at h
    cases hr : mapLookup rest k with
    | some w =>
      rw [hr] at h
      cases h
      exact List.mem_cons_of_mem _ (ih hr)
    | none =>
      rw [hr] at h
      by_cases hk : p.1 = k
      · rw [if_pos hk] at h
        cases h
        subst hk
        exact List.mem_cons_self _ _
      · rw [if_neg hk] at h
        cases h

theorem buildIndexFrom_mem {cols : List String} {i : Nat}
    {p : String × Nat} (h : p ∈ buildIndexFrom i cols) :
    i ≤ p.2 ∧ p.2 < i + cols.length := by
  induction cols generalizing i with
  | nil => simp [buildIndexFrom] at h
  | cons c rest ih =>
    rw [buildIndexFrom] at h
    rcases List.mem_cons.mp h with h | h
    · subst h; simp
    · have := ih h
      constructor
      · omega
      · simpa [List.length_cons] using by omega

theorem mapLookup_buildIndex_lt {cols : List String} {k : String}
    {v : Nat} (h : mapLookup (buildIndex cols) k = some v) :
    v < cols.length := by
  have hm := mapLookup_mem h
  have := @buildIndexFrom_mem cols 0 (k, v) hm
  simpa using this.2

theorem scanRec_ok {n : Nat} {vs : List Value} (h : vs.length = n) :
    scanRec n (.ok vs) = .ok vs := by
  simp [scanRec, h]

theorem fillRows_clean {cols : List String} {idx : List (String × Nat)}
    {recs : List (Except GoError (List Value))}
    (h : ∀ r ∈ recs, ∃ vs, r = .ok vs ∧ vs.length = cols.length) :
    ∀ acc, fillRows cols idx acc recs =
      (acc ++ recs.map fun r => ⟨idx, okValD r⟩, none) := by
  induction recs with
  | nil => intro acc; simp [fillRows]
  | cons r rest ih =>
    intro acc
    obtain ⟨vs, hr, hlen⟩ := h r (List.mem_cons_self _ _)
    subst hr
    rw [fillRows]
    rw [scanRec_ok hlen]
    show fillRows cols idx (acc ++ [⟨idx, vs⟩]) rest = _
    rw [ih (fun r hm => h r (List.mem_cons_of_mem _ hm))]
    simp [okValD]

theorem fillRows_rows_wf {cols : List String} {idx : List (String × Nat)}
    {recs : List (Except GoError (List Value))} :
    ∀ acc rows err, fillRows cols idx acc recs = (rows, err) →
      ∀ r ∈ rows, r ∈ acc ∨
        (r.columnNameIndex = idx ∧ r.Field.length = cols.length) := by
  induction recs with
  | nil =>
    intro acc rows err h r hr
    rw [fillRows] at h
    cases h
    exact Or.inl hr
  | cons rc rest ih =>
    intro acc rows err h r hr
    rw [fillRows] at h
    cases hs : scanRec cols.length rc with
    | error e =>
      simp only [hs] at h
      cases h
      exact Or.inl hr
    | ok vs =>
      simp only [hs] at h
      have hlen : vs.length = cols.length := by
        cases rc with
        | error e => simp [scanRec] at hs
        | ok ws =>
          simp only [scanRec] at hs
          by_cases hw : ws.length = cols.length
          · rw [if_pos hw] at hs; cases hs; exact hw
          · rw [if_neg hw] at hs; cases hs
      rcases ih _ _ _ h r hr with hmem | hgood
      · rcases List.mem_append.mp hmem with hacc | hnew
        · exact Or.inl hacc
        · right
          rcases List.mem_singleton.mp hnew with rfl
          exact ⟨rfl, hlen⟩
      · exact Or.inr hgood

theorem processRS_clean {rs : ResultSet} (h : rs.clean = true) :
    processRS rs =
      ({ Columns := colsOf rs, Rows := rowsOf rs,
         columnNameIndex := buildIndex (colsOf rs) }, none) := by
  rw [ResultSet.clean, Bool.or_eq_true] at h
  cases hrecs : rs.recs with
  | nil =>
    simp [processRS, hrecs, colsOf, rowsOf, Buffer.empty, buildIndex,
      buildIndexFrom]
  | cons r rest =>
    rw [hrecs] at h
    rcases h with h | h
    · simp at h
    · cases hcols : rs.colsRes with
      | error e => rw [hcols] at h; simp at h
      | ok cols =>
        rw [hcols] at h
        have hall : ∀ x ∈ r :: rest, ∃ vs, x = Except.ok vs ∧
            vs.length = cols.length := by
          intro x hx
          have := (List.all_eq_true.mp h) x hx
          cases x with
          | error e => simp at this
          | ok vs => exact ⟨vs, rfl, by simpa using this⟩
        have hcolsOf : colsOf rs = cols := by
          rw [colsOf, hrecs, hcols]
        simp only [processRS, hrecs, hcols]
        rw [fillRows_clean hall []]
        simp [rowsOf, hcolsOf, hrecs]

theorem processRS_wf {rs : ResultSet} {b : Buffer}
    (h : (processRS rs).1 = b) (hn : (processRS rs).2 = none) : b.WF := by
  rw [processRS] at h hn
  cases hrecs : rs.recs with
  | nil =>
    rw [hrecs] at h
    cases h
    exact ⟨rfl, by simp [Buffer.empty]⟩
  | cons r rest =>
    rw [hrecs] at h hn
    cases hcols : rs.colsRes with
    | error e => simp only [hcols] at hn; cases hn
    | ok cols =>
      simp only [hcols] at h hn
      cases hf : fillRows cols (buildIndex cols) [] (r :: rest) with
      | mk rows err =>
        simp only [hf] at h hn
        subst h
        refine ⟨rfl, ?_⟩
        intro rw' hrw
        rcases fillRows_rows_wf _ _ _ hf rw' hrw with hmem | hgood
        · simp at hmem
        · exact ⟨hgood.2, hgood.1⟩

theorem fillSetAux_clean {cursor : List ResultSet}
    (h : ∀ rs ∈ cursor, rs.clean = true) :
    ∀ set0, fillSetAux set0 cursor =
      (set0 ++ cursor.map fun rs => (processRS rs).1, none) := by
  induction cursor with
  | nil => intro set0; simp [fillSetAux]
  | cons rs rest ih =>
    intro set0
    have hc := processRS_clean (h rs (List.mem_cons_self _ _))
    rw [fillSetAux]
    rw [hc]
    show fillSetAux (set0 ++ [_]) rest = _
    rw [ih (fun r hm => h r (List.mem_cons_of_mem _ hm))]
    simp [hc]

theorem fillSetAux_wf {cursor : List ResultSet} :
    ∀ set0 buf, buf ∈ (fillSetAux set0 cursor).1 →
      buf ∈ set0 ∨ buf.WF := by
  induction cursor with
  | nil =>
    intro set0 buf h
    rw [fillSetAux] at h
    exact Or.inl h
  | cons rs rest ih =>
    intro set0 buf h
    rw [fillSetAux] at h
    cases hp : processRS rs with
    | mk table err =>
      cases err with
      | some e =>
        simp only [hp] at h
        exact Or.inl h
      | none =>
        simp only [hp] at h
        rcases ih _ _ h with hmem | hwf
        · rcases List.mem_append.mp hmem with h0 | h1
          · exact Or.inl h0
          · right
            rcases List.mem_singleton.mp h1 with rfl
            exact processRS_wf (by rw [hp]) (by rw [hp])
        · exact Or.inr hwf

theorem fillSetAux_err {done : List ResultSet} {rs : ResultSet}
    {rest : List ResultSet} {e : GoError}
    (hdone : ∀ d ∈ done, d.clean = true)
    (herr : (processRS rs).2 = some e) :
    ∀ set0, fillSetAux set0 (done ++ rs :: rest) =
      (set0 ++ done.map fun d => (processRS d).1, some e) := by
  induction done with
  | nil =>
    intro set0
    have hp : processRS rs = ((processRS rs).1, some e) := by
      rw [← herr]
    rw [List.nil_append, fillSetAux, hp]
    simp
  | cons d drest ih =>
    intro set0
    have hc := processRS_clean (hdone d (List.mem_cons_self _ _))
    rw [List.cons_append, fillSetAux, hc]
    show fillSetAux (set0 ++ [_]) (drest ++ rs :: rest) = _
    rw [ih (fun x hm => hdone x (List.mem_cons_of_mem _ hm))]
    simp [hc]

/-- C1: a fully drained, error-free ingestion returns one buffer per
result set in result-set order; a result set's buffer carries exactly
that set's rows, and column discovery (names plus a rebuilt column
index) is repeated for each result set that has records. -/
theorem fillSet_one_buffer_per_result_set (cursor : List ResultSet)
    (h : ∀ rs ∈ cursor, rs.clean = true) :
    (FillSet cursor).2 = none ∧
    (FillSet cursor).1.length = cursor.length ∧
    ∀ (k : Nat) (rs : ResultSet) (buf : Buffer), cursor[k]? = some rs →
      (FillSet cursor).1[k]? = some buf →
      (rs.recs = [] → buf = Buffer.empty) ∧
      ∀ cols, rs.colsRes = .ok cols → rs.recs ≠ [] →
        buf.Columns = cols ∧ buf.columnNameIndex = buildIndex cols ∧
        buf.Rows.map Row.Field = rs.recs.map okValD ∧
        ∀ r ∈ buf.Rows, r.columnNameIndex = buildIndex cols := by
  have hval : FillSet cursor =
      (cursor.map fun rs => (processRS rs).1, none) := by
    rw [FillSet, fillSetAux_clean h]
    simp
  refine ⟨by rw [hval], by rw [hval]; simp, ?_⟩
  intro k rs buf hk hbuf
  rw [hval] at hbuf
  simp only [List.getElem?_map, hk, Option.map_some'] at hbuf
  have hrs : rs ∈ cursor := List.getElem?_mem hk
  have hc := processRS_clean (h rs hrs)
  have hbufval :
      buf = ⟨colsOf rs, rowsOf rs, buildIndex (colsOf rs)⟩ := by
    rw [hc] at hbuf
    simpa using hbuf.symm
  constructor
  · intro hempty
    rw [hbufval]
    simp [colsOf, rowsOf, hempty, Buffer.empty, buildIndex, buildIndexFrom]
  · intro cols hcols hne
    have hcolsOf : colsOf rs = cols := by
      rw [colsOf]
      cases hrecs : rs.recs with
      | nil => exact absurd hrecs hne
      | cons a b => rw [hcols]
    rw [hbufval, hcolsOf]
    refine ⟨rfl, rfl, ?_, ?_⟩
    · simp [rowsOf, hcolsOf, List.map_map, Function.comp]
    · intro r hr
      rw [rowsOf, hcolsOf] at hr
      rcases List.mem_map.mp hr with ⟨x, _, rfl⟩
      rfl

def wcursor : List ResultSet :=
  [⟨.ok ["ID", "Name"],
    [.ok [.vInt64 1, .vStr "R1"], .ok [.vInt64 2, .vStr "R2"]]⟩,
   ⟨.ok ["X"], []⟩,
   ⟨.ok ["A", "B"], [.ok [.vBool true, .vNull]]⟩]

theorem fillSet_one_buffer_per_result_set_witness :
    (∀ rs ∈ wcursor, rs.clean = true) ∧
    (FillSet wcursor).1.length = wcursor.length :=
  ⟨by decide, (fillSet_one_buffer_per_result_set wcursor (by decide)).2.1⟩

/-- C2: every buffer produced by ingestion has rows exactly as wide as
its column list, and every row carries the column index built once from
that list. -/
theorem fillSet_rows_width_and_shared_index (cursor : List ResultSet)
    (buf : Buffer) (hbuf : buf ∈ (FillSet cursor).1) :
    ∀ r ∈ buf.Rows, r.Field.length = buf.Columns.length ∧
      r.columnNameIndex = buildIndex buf.Columns := by
  rcases fillSetAux_wf _ _ hbuf with hmem | hwf
  · simp at hmem
  · intro r hr
    exact ⟨(hwf.2 r hr).1, by rw [(hwf.2 r hr).2, hwf.1]⟩

def w2buf : Buffer :=
  { Columns := ["ID", "Name"],
    Rows := [⟨buildIndex ["ID", "Name"], [.vInt64 1, .vStr "R1"]⟩,
             ⟨buildIndex ["ID", "Name"], [.vInt64 2, .vStr "R2"]⟩],
    columnNameIndex := buildIndex ["ID", "Name"] }

def w2row : Row := ⟨buildIndex ["ID", "Name"], [.vInt64 1, .vStr "R1"]⟩

theorem fillSet_rows_width_and_shared_index_witness :
    w2row.Field.length = w2buf.Columns.length ∧
      w2row.columnNameIndex = buildIndex w2buf.Columns :=
  fillSet_rows_width_and_shared_index wcursor w2buf (by decide)
    w2row (by decide)

def c3cursor : List ResultSet :=
  [⟨.ok ["ID"], [.ok [.vInt64 1], .ok [.vInt64 2], .error (.ioErr "scan")]⟩]

/-- C3 counterexample: a scan failure on the third record of the only
result set.  `FillSet` signals the failure but returns an empty
collection: the partially filled buffer holding the first two rows is
not part of the result, contrary to the claim. -/
theorem fillSet_partial_buffer_dropped_cex :
    (FillSet c3cursor).1 = [] ∧
    (FillSet c3cursor).2 = some (.ioErr "scan") := by decide

/-- C3 amended: a mid-stream failure aborts ingestion, propagates the
error, and returns exactly the buffers of the result sets already fully
ingested; the current, partially filled buffer is discarded. -/
theorem fillSet_error_preserves_completed_sets
    (done : List ResultSet) (rs : ResultSet) (rest : List ResultSet)
    (e : GoError) (hdone : ∀ d ∈ done, d.clean = true)
    (herr : (processRS rs).2 = some e) :
    FillSet (done ++ rs :: rest) =
      (done.map fun d => (processRS d).1, some e) := by
  rw [FillSet, fillSetAux_err hdone herr]
  simp

def wdone : List ResultSet := [⟨.ok ["A"], [.ok [.vBool true]]⟩]

def wbad : ResultSet :=
  ⟨.ok ["A"], [.ok [.vBool false], .error (.ioErr "boom")]⟩

theorem fillSet_error_preserves_completed_sets_witness :
    (∀ d ∈ wdone, d.clean = true) ∧
    (processRS wbad).2 = some (.ioErr "boom") ∧
    FillSet (wdone ++ wbad :: [⟨.ok ["Z"], []⟩]) =
      (wdone.map fun d => (processRS d).1, some (.ioErr "boom")) :=
  ⟨by decide, by decide,
    fillSet_error_preserves_completed_sets wdone wbad [⟨.ok ["Z"], []⟩]
      (.ioErr "boom") (by decide) (by decide)⟩

theorem enumFrom_fst_lt {l : List α} :
    ∀ {i : Nat} {p : Nat × α}, p ∈ enumFrom i l → p.1 < i + l.length := by
  induction l with
  | nil => intro i p h; simp [enumFrom] at h
  | cons a rest ih =>
    intro i p h
    rw [enumFrom] at h
    rcases List.mem_cons.mp h with h | h
    · subst h; simp
    · have := ih h
      simp only [List.length_cons]
      omega

/-- One step of the spec-side field-lookup fold. -/
def specStep (colMap : List (String × Nat)) (l : List (Option Nat))
    (p : Nat × StructField) : List (Option Nat) :=
  match fieldDecision colMap p.2 with
  | .bound c => l.set c (some p.1)
  | _ => l

theorem specLookup_eq_foldl {n : Nat} {colMap : List (String × Nat)}
    {fields : List StructField} :
    specLookup n colMap fields =
      (enumFrom 0 fields).foldl (specStep colMap) (List.replicate n none) := by
  rw [specLookup]
  rfl

theorem foldl_specStep_length {colMap : List (String × Nat)} :
    ∀ (pairs : List (Nat × StructField)) (l : List (Option Nat)),
      (pairs.foldl (specStep colMap) l).length = l.length := by
  intro pairs
  induction pairs with
  | nil => intro l; rfl
  | cons p rest ih =>
    intro l
    rw [List.foldl_cons, ih]
    rw [specStep]
    cases fieldDecision colMap p.2 <;> simp

theorem specLookup_length {n : Nat} {colMap : List (String × Nat)}
    {fields : List StructField} :
    (specLookup n colMap fields).length = n := by
  rw [specLookup_eq_foldl, foldl_specStep_length]
  simp

theorem foldl_specStep_entries {colMap : List (String × Nat)} {N : Nat} :
    ∀ (pairs : List (Nat × StructField)) (l : List (Option Nat)),
      (∀ si, some si ∈ l → si < N) → (∀ p ∈ pairs, p.1 < N) →
      ∀ si, some si ∈ pairs.foldl (specStep colMap) l → si < N := by
  intro pairs
  induction pairs with
  | nil => intro l hl _ si h; exact hl si h
  | cons p rest ih =>
    intro l hl hp si h
    rw [List.foldl_cons] at h
    refine ih _ ?_ (fun q hq => hp q (List.mem_cons_of_mem _ hq)) si h
    intro sj hsj
    rw [specStep] at hsj
    cases hd : fieldDecision colMap p.2 with
    | bound c =>
      rw [hd] at hsj
      rcases List.mem_or_eq_of_mem_set hsj with hmem | heq
      · exact hl sj hmem
      · cases heq
        exact hp p (List.mem_cons_self _ _)
    | ignored => rw [hd] at hsj; exact hl sj hsj
    | unused s => rw [hd] at hsj; exact hl sj hsj

theorem specLookup_entries {n : Nat} {colMap : List (String × Nat)}
    {fields : List StructField} :
    ∀ si, some si ∈ specLookup n colMap fields → si < fields.length := by
  rw [specLookup_eq_foldl]
  refine foldl_specStep_entries _ _ ?_ ?_
  · intro si h
    have := List.eq_of_mem_replicate h
    cases this
  · intro p hp
    simpa using enumFrom_fst_lt hp

theorem enumFrom_filterMap {l : List α} {g : α → Option β} :
    ∀ i : Nat, (enumFrom i l).filterMap (fun p => g p.2) = l.filterMap g := by
  induction l with
  | nil => intro i; rfl
  | cons a rest ih =>
    intro i
    rw [enumFrom, List.filterMap_cons, List.filterMap_cons]
    cases g a <;> simp [ih]

/-- The code's field-lookup setup agrees with the spec-side fold: the
final lookup table and the ordered unused report. -/
theorem bindFields_eq {colMap : List (String × Nat)} :
    ∀ (pairs : List (Nat × StructField)) (lookup : List (Option Nat))
      (missing : List String),
      (∀ k c, mapLookup colMap k = some c → c < lookup.length) →
      bindFields colMap pairs lookup missing =
        .ok (pairs.foldl (specStep colMap) lookup,
          missing ++ pairs.filterMap fun p => unusedOf colMap p.2) := by
  intro pairs
  induction pairs with
  | nil => intro lookup missing hcm; simp [bindFields]
  | cons p rest ih =>
    intro lookup missing hcm
    obtain ⟨i, sf⟩ := p
    rw [bindFields]
    cases htag : sf.tag with
    | some tag =>
      by_cases hdash : tag = "-"
      · simp only [if_pos hdash]
        rw [ih _ _ hcm]
        simp [specStep, fieldDecision, unusedOf, htag, hdash]
      · cases hlk : mapLookup colMap tag with
        | some idx =>
          have hlt : idx < lookup.length := hcm tag idx hlk
          have hcm2 : ∀ k c, mapLookup colMap k = some c →
              c < (lookup.set idx (some i)).length := by
            simpa using hcm
          simp only [if_neg hdash, hlk, setAt, if_pos hlt]
          rw [ih _ _ hcm2]
          simp [specStep, fieldDecision, unusedOf, htag, hlk, hdash]
        | none =>
          simp only [if_neg hdash, hlk]
          rw [ih _ _ hcm]
          simp [specStep, fieldDecision, unusedOf, htag, hlk, hdash,
            reportUnmatchedStruct]
    | none =>
      cases hlk : mapLookup colMap sf.name with
      | some idx =>
        have hlt : idx < lookup.length := hcm sf.name idx hlk
        have hcm2 : ∀ k c, mapLookup colMap k = some c →
            c < (lookup.set idx (some i)).length := by
          simpa using hcm
        simp only [hlk, setAt, if_pos hlt]
        rw [ih _ _ hcm2]
        simp [specStep, fieldDecision, unusedOf, htag, hlk]
      | none =>
        simp only [hlk]
        rw [ih _ _ hcm]
        simp [specStep, fieldDecision, unusedOf, htag, hlk,
          reportUnmatchedStruct]

/-- `bindingOf` on a wellformed buffer: the code's binding pass equals
the spec-side lookup table and unused list. -/
theorem bindingOf_eq {buf : Buffer} (hwf : buf.WF)
    (fields : List StructField) :
    bindingOf fields buf =
      .ok (specLookup buf.Columns.length buf.columnNameIndex fields,
        specUnused buf.columnNameIndex fields) := by
  rw [bindingOf, bindFields_eq]
  · rw [specLookup_eq_foldl]
    have h := @enumFrom_filterMap StructField String fields
      (unusedOf buf.columnNameIndex) 0
    rw [h, specUnused]
    simp
  · intro k c h
    rw [hwf.1] at h
    simpa using mapLookup_buildIndex_lt h

/-- C4: the binding pass processes fields in declaration order with the
priority: ignore-sentinel fields are skipped (neither bound nor
reported); a field with an explicit name annotation binds through the
annotation's column-index lookup; only a field without an annotation
falls back to its own declared name; a field no lookup resolves is
recorded as an unused struct field. -/
theorem bufferToStruct_binding_priority (buf : Buffer) (hwf : buf.WF)
    (fields : List StructField) :
    bindingOf fields buf =
      .ok (specLookup buf.Columns.length buf.columnNameIndex fields,
        specUnused buf.columnNameIndex fields) :=
  bindingOf_eq hwf fields

def w4buf : Buffer :=
  { Columns := ["ID", "Name", "Extra"],
    Rows := [],
    columnNameIndex := buildIndex ["ID", "Name", "Extra"] }

def w4fields : List StructField :=
  [⟨"ID", none, .tInt64⟩,
   ⟨"Renamed", some "Name", .tStr⟩,
   ⟨"Skipped", some "-", .tBool⟩,
   ⟨"Lost", none, .tBool⟩,
   ⟨"AlsoLost", some "Nope", .tBool⟩]

theorem bufferToStruct_binding_priority_witness :
    w4buf.WF ∧
    bindingOf w4fields w4buf =
      .ok (specLookup w4buf.Columns.length w4buf.columnNameIndex w4fields,
        specUnused w4buf.columnNameIndex w4fields) ∧
    specLookup w4buf.Columns.length w4buf.columnNameIndex w4fields =
      [some 0, some 1, none] ∧
    specUnused w4buf.columnNameIndex w4fields =
      ["Lost", "AlsoLost(tag=Nope)"] :=
  ⟨by decide, bufferToStruct_binding_priority w4buf (by decide) w4fields,
    by decide, by decide⟩

/-- C5: when at least one non-ignored field matches no buffered column,
`BufferToStruct` fails with the single aggregate unused-struct-fields
error naming every such field, in order, in the `name(tag=value)` form
when an unmatched annotation was present. -/
theorem bufferToStruct_aggregate_unused_error (buf : Buffer)
    (hwf : buf.WF) (fields : List StructField)
    (hne : specUnused buf.columnNameIndex fields ≠ []) :
    BufferToStruct (.strct fields) buf =
      .error (.unusedStructFields (specUnused buf.columnNameIndex fields)) := by
  rw [BufferToStruct]
  rw [bindingOf_eq hwf]
  simp only [if_pos hne]

def w5fields : List StructField :=
  [⟨"ID", none, .tInt64⟩,
   ⟨"Age", none, .tInt64⟩,
   ⟨"X", some "Nope", .tStr⟩]

theorem bufferToStruct_aggregate_unused_error_witness :
    w2buf.WF ∧
    specUnused w2buf.columnNameIndex w5fields = ["Age", "X(tag=Nope)"] ∧
    BufferToStruct (.strct w5fields) w2buf =
      .error (.unusedStructFields ["Age", "X(tag=Nope)"]) := by
  refine ⟨by decide, by decide, ?_⟩
  have h := bufferToStruct_aggregate_unused_error w2buf (by decide)
    w5fields (by decide)
  rw [h]
  decide

theorem copyRowAux_ok_get {fields : List StructField} {rowF : List Value} :
    ∀ (l : List (Option Nat)) (b0 : Nat) (sv sv' : List Value),
      (∀ si, some si ∈ l → si < sv.length) →
      copyRowAux fields rowF l b0 sv = .ok sv' →
      sv'.length = sv.length ∧
      ∀ j : Nat,
        (∀ c, lastIdx l j = some c → sv'[j]? = rowF[b0 + c]?) ∧
        (lastIdx l j = none → sv'[j]? = sv[j]?) := by
  intro l
  induction l with
  | nil =>
    intro b0 sv sv' _ h
    rw [copyRowAux] at h
    cases h
    refine ⟨rfl, fun j => ⟨?_, fun _ => rfl⟩⟩
    intro c hc
    rw [lastIdx] at hc
    cases hc
  | cons e rest ih =>
    intro b0 sv sv' hsv h
    cases e with
    | none =>
      rw [copyRowAux] at h
      have hsv' : ∀ si, some si ∈ rest → si < sv.length := fun si hm =>
        hsv si (List.mem_cons_of_mem _ hm)
      obtain ⟨hlen, hget⟩ := ih (b0 + 1) sv sv' hsv' h
      refine ⟨hlen, fun j => ⟨?_, ?_⟩⟩
      · intro c hc
        rw [lastIdx] at hc
        cases hli : lastIdx rest j with
        | some c0 =>
          rw [hli] at hc
          cases hc
          have := (hget j).1 c0 hli
          have harith : b0 + 1 + c0 = b0 + (c0 + 1) := by omega
          rw [harith] at this
          exact this
        | none =>
          rw [hli] at hc
          simp at hc
      · intro hc
        rw [lastIdx] at hc
        cases hli : lastIdx rest j with
        | some c0 => rw [hli] at hc; cases hc
        | none => exact (hget j).2 hli
    | some si =>
      rw [copyRowAux] at h
      cases hf : fields[si]? with
      | none => simp only [hf] at h; cases h
      | some sf =>
        simp only [hf] at h
        cases hv : rowF[b0]? with
        | none => simp only [hv] at h; cases h
        | some fv =>
          simp only [hv] at h
          by_cases hty : fv.ty? = some sf.ty
          · rw [if_pos hty] at h
            have hsilt : si < sv.length := hsv si (List.mem_cons_self _ _)
            have hsv' : ∀ sj, some sj ∈ rest → sj < (sv.set si fv).length := by
              intro sj hm
              rw [List.length_set]
              exact hsv sj (List.mem_cons_of_mem _ hm)
            obtain ⟨hlen, hget⟩ := ih (b0 + 1) (sv.set si fv) sv' hsv' h
            rw [List.length_set] at hlen
            refine ⟨hlen, fun j => ⟨?_, ?_⟩⟩
            · intro c hc
              rw [lastIdx] at hc
              cases hli : lastIdx rest j with
              | some c0 =>
                rw [hli] at hc
                cases hc
                have := (hget j).1 c0 hli
                have harith : b0 + 1 + c0 = b0 + (c0 + 1) := by omega
                rw [harith] at this
                exact this
              | none =>
                rw [hli] at hc
                by_cases hsij : (some si : Option Nat) = some j
                · rw [if_pos hsij] at hc
                  cases hc
                  cases Option.some_inj.mp hsij
                  have := (hget si).2 hli
                  rw [List.getElem?_set_self hsilt] at this
                  rw [Nat.add_zero, hv]
                  exact this
                · rw [if_neg hsij] at hc
                  cases hc
            · intro hc
              rw [lastIdx] at hc
              cases hli : lastIdx rest j with
              | some c0 => rw [hli] at hc; cases hc
              | none =>
                by_cases hsij : (some si : Option Nat) = some j
                · rw [hli, if_pos hsij] at hc; cases hc
                · have hne : si ≠ j := fun hh => hsij (by rw [hh])
                  have := (hget j).2 hli
                  rw [List.getElem?_set_ne hne] at this
                  exact this
          · rw [if_neg hty] at h
            cases h

theorem copyRowAux_ok_all_match {fields : List StructField}
    {rowF : List Value} :
    ∀ (l : List (Option Nat)) (b0 : Nat) (sv sv' : List Value),
      copyRowAux fields rowF l b0 sv = .ok sv' →
      ∀ (c j : Nat), l[c]? = some (some j) →
        ∃ sf v, fields[j]? = some sf ∧ rowF[b0 + c]? = some v ∧
          v.ty? = some sf.ty := by
  intro l
  induction l with
  | nil =>
    intro b0 sv sv' _ c j hc
    simp at hc
  | cons e rest ih =>
    intro b0 sv sv' h c j hc
    cases e with
    | none =>
      rw [copyRowAux] at h
      cases c with
      | zero => simp at hc
      | succ c0 =>
        rw [List.getElem?_cons_succ] at hc
        have := ih (b0 + 1) sv sv' h c0 j hc
        have harith : b0 + 1 + c0 = b0 + (c0 + 1) := by omega
        rw [harith] at this
        exact this
    | some si =>
      rw [copyRowAux] at h
      cases hf : fields[si]? with
      | none => simp only [hf] at h; cases h
      | some sf =>
        simp only [hf] at h
        cases hv : rowF[b0]? with
        | none => simp only [hv] at h; cases h
        | some fv =>
          simp only [hv] at h
          by_cases hty : fv.ty? = some sf.ty
          · rw [if_pos hty] at h
            cases c with
            | zero =>
              rw [List.getElem?_cons_zero] at hc
              cases Option.some_inj.mp (Option.some_inj.mp hc)
              exact ⟨sf, fv, hf, by rw [Nat.add_zero]; exact hv, hty⟩
            | succ c0 =>
              rw [List.getElem?_cons_succ] at hc
              have := ih (b0 + 1) (sv.set si fv) sv' h c0 j hc
              have harith : b0 + 1 + c0 = b0 + (c0 + 1) := by omega
              rw [harith] at this
              exact this
          · rw [if_neg hty] at h
            cases h

theorem copyRowAux_ok_or_mismatch {fields : List StructField}
    {rowF : List Value} :
    ∀ (l : List (Option Nat)) (b0 : Nat) (sv : List Value),
      (∀ si, some si ∈ l → si < fields.length) →
      b0 + l.length ≤ rowF.length →
      (∃ r, copyRowAux fields rowF l b0 sv = .ok r) ∨
      ∃ t ot, copyRowAux fields rowF l b0 sv =
        .error (.typeMismatch t ot) ∧ ot ≠ some t := by
  intro l
  induction l with
  | nil =>
    intro b0 sv _ _
    exact Or.inl ⟨sv, rfl⟩
  | cons e rest ih =>
    intro b0 sv hents hlen
    cases e with
    | none =>
      rw [copyRowAux]
      refine ih (b0 + 1) sv (fun si hm => hents si (List.mem_cons_of_mem _ hm)) ?_
      simp only [List.length_cons] at hlen
      omega
    | some si =>
      rw [copyRowAux]
      have hsi : si < fields.length := hents si (List.mem_cons_self _ _)
      have hb0 : b0 < rowF.length := by
        simp only [List.length_cons] at hlen
        omega
      rw [List.getElem?_eq_getElem hsi, List.getElem?_eq_getElem hb0]
      by_cases hty : (rowF[b0]).ty? = some (fields[si]).ty
      · simp only [if_pos hty]
        refine ih (b0 + 1) _ (fun sj hm => hents sj (List.mem_cons_of_mem _ hm)) ?_
        simp only [List.length_cons] at hlen
        omega
      · simp only [if_neg hty]
        exact Or.inr ⟨(fields[si]).ty, (rowF[b0]).ty?, rfl, hty⟩

theorem copyRows_ok_get {fields : List StructField}
    {lookup : List (Option Nat)} :
    ∀ (rows : List Row) (out : List (List Value)),
      copyRows fields lookup rows = .ok out →
      out.length = rows.length ∧
      ∀ (k : Nat) (r : Row), rows[k]? = some r →
        ∃ sv, copyRowAux fields r.Field lookup 0 (zeroStruct fields) = .ok sv
          ∧ out[k]? = some sv := by
  intro rows
  induction rows with
  | nil =>
    intro out h
    rw [copyRows] at h
    cases h
    exact ⟨rfl, fun k r hk => by simp at hk⟩
  | cons r rest ih =>
    intro out h
    rw [copyRows] at h
    cases hr : copyRowAux fields r.Field lookup 0 (zeroStruct fields) with
    | error e => simp only [hr] at h; cases h
    | ok sv =>
      simp only [hr] at h
      cases hrest : copyRows fields lookup rest with
      | error e => simp only [hrest] at h; cases h
      | ok svs =>
        simp only [hrest] at h
        cases h
        obtain ⟨hlen, hget⟩ := ih svs hrest
        refine ⟨by simp [hlen], ?_⟩
        intro k r' hk
        cases k with
        | zero =>
          rw [List.getElem?_cons_zero] at hk
          cases Option.some_inj.mp hk
          exact ⟨sv, hr, by simp⟩
        | succ k0 =>
          rw [List.getElem?_cons_succ] at hk
          obtain ⟨sv', hsv', hout⟩ := hget k0 r' hk
          exact ⟨sv', hsv', by rw [List.getElem?_cons_succ]; exact hout⟩

theorem copyRows_ok_or_mismatch {fields : List StructField}
    {lookup : List (Option Nat)}
    (hents : ∀ si, some si ∈ lookup → si < fields.length) :
    ∀ rows : List Row, (∀ r ∈ rows, lookup.length ≤ r.Field.length) →
      (∃ out, copyRows fields lookup rows = .ok out) ∨
      ∃ t ot, copyRows fields lookup rows = .error (.typeMismatch t ot)
        ∧ ot ≠ some t := by
  intro rows
  induction rows with
  | nil => intro _; exact Or.inl ⟨[], rfl⟩
  | cons r rest ih =>
    intro hlens
    rw [copyRows]
    have hr0 : 0 + lookup.length ≤ r.Field.length := by
      simpa using hlens r (List.mem_cons_self _ _)
    rcases copyRowAux_ok_or_mismatch lookup 0 (zeroStruct fields)
        hents hr0 with ⟨sv, hsv⟩ | ⟨t, ot, herr, hne⟩
    · rw [hsv]
      rcases ih (fun x hm => hlens x (List.mem_cons_of_mem _ hm)) with
        ⟨out, hout⟩ | ⟨t, ot, herr, hne⟩
      · rw [hout]
        exact Or.inl ⟨sv :: out, rfl⟩
      · rw [herr]
        exact Or.inr ⟨t, ot, rfl, hne⟩
    · rw [herr]
      exact Or.inr ⟨t, ot, rfl, hne⟩

theorem bufferToStruct_unused_err {buf : Buffer} (hwf : buf.WF)
    {fields : List StructField}
    (hne : specUnused buf.columnNameIndex fields ≠ []) :
    BufferToStruct (.strct fields) buf =
      .error (.unusedStructFields (specUnused buf.columnNameIndex fields)) := by
  rw [BufferToStruct, bindingOf_eq hwf]
  simp only [if_pos hne]

theorem bufferToStruct_strct_eq {buf : Buffer} (hwf : buf.WF)
    {fields : List StructField}
    (hm : specUnused buf.columnNameIndex fields = []) :
    BufferToStruct (.strct fields) buf =
      copyRows fields
        (specLookup buf.Columns.length buf.columnNameIndex fields)
        buf.Rows := by
  rw [BufferToStruct, bindingOf_eq hwf]
  simp [hm, reportUnmatchedBuffer]

theorem zeroStruct_length {fields : List StructField} :
    (zeroStruct fields).length = fields.length := by
  simp [zeroStruct]

/-- C6: on success, `BufferToStruct` returns one record per buffered
row in row order; each record is materialized from its own row: a
struct field bound to some column holds that column's value of that row
(the last binder when several columns bind the same field), and a field
bound by no column stays at its zero value. -/
theorem bufferToStruct_success_shape (buf : Buffer) (hwf : buf.WF)
    (fields : List StructField) (out : List (List Value))
    (hok : BufferToStruct (.strct fields) buf = .ok out) :
    out.length = buf.Rows.length ∧
    ∃ lookup, bindingOf fields buf = .ok (lookup, []) ∧
      ∀ (k : Nat) (row : Row) (sv : List Value),
        buf.Rows[k]? = some row → out[k]? = some sv →
        sv.length = fields.length ∧
        ∀ (j : Nat) (sf : StructField), fields[j]? = some sf →
          (∀ c, lastIdx lookup j = some c → sv[j]? = row.Field[c]?) ∧
          (lastIdx lookup j = none → sv[j]? = some sf.ty.zero) := by
  have hm : specUnused buf.columnNameIndex fields = [] := by
    by_contra hne
    rw [bufferToStruct_unused_err hwf hne] at hok
    cases hok
  rw [bufferToStruct_strct_eq hwf hm] at hok
  obtain ⟨hlen, hget⟩ := copyRows_ok_get buf.Rows out hok
  refine ⟨hlen,
    specLookup buf.Columns.length buf.columnNameIndex fields,
    by rw [bindingOf_eq hwf, hm], ?_⟩
  intro k row sv hk hsv
  obtain ⟨sv', hca, hout⟩ := hget k row hk
  have hsveq : sv' = sv := by
    rw [hout] at hsv
    exact Option.some_inj.mp hsv
  subst hsveq
  have hents : ∀ si,
      some si ∈ specLookup buf.Columns.length buf.columnNameIndex fields →
      si < (zeroStruct fields).length := by
    intro si hmem
    rw [zeroStruct_length]
    exact specLookup_entries si hmem
  obtain ⟨hsvlen, hj⟩ := copyRowAux_ok_get _ 0 _ sv' hents hca
  rw [zeroStruct_length] at hsvlen
  refine ⟨hsvlen, ?_⟩
  intro j sf hf
  refine ⟨?_, ?_⟩
  · intro c hc
    have := (hj j).1 c hc
    rw [Nat.zero_add] at this
    exact this
  · intro hc
    have := (hj j).2 hc
    rw [this, zeroStruct, List.getElem?_map, hf]
    rfl

def w6fields : List StructField :=
  [⟨"ID", none, .tInt64⟩, ⟨"Name", none, .tStr⟩]

def w6out : List (List Value) :=
  [[.vInt64 1, .vStr "R1"], [.vInt64 2, .vStr "R2"]]

theorem bufferToStruct_success_shape_witness :
    BufferToStruct (.strct w6fields) w2buf = .ok w6out ∧
    w6out.length = w2buf.Rows.length :=
  ⟨by decide,
    (bufferToStruct_success_shape w2buf (by decide) w6fields w6out
      (by decide)).1⟩

/-- C10: on a wellformed buffer the binding pass writes only within
the column-sized lookup table and the copy pass reads only in bounds:
for every target type, also one with more fields than there are
columns, `BufferToStruct` never ends in the modelled index-range
panic. -/
theorem bufferToStruct_no_out_of_range (buf : Buffer) (hwf : buf.WF)
    (tp : GoType) : BufferToStruct tp buf ≠ .error .outOfRange := by
  cases tp with
  | nonStruct kind =>
    rw [BufferToStruct]
    simp
  | strct fields =>
    by_cases hm : specUnused buf.columnNameIndex fields = []
    · rw [bufferToStruct_strct_eq hwf hm]
      have hlens : ∀ r ∈ buf.Rows,
          (specLookup buf.Columns.length buf.columnNameIndex
            fields).length ≤ r.Field.length := by
        intro r hr
        rw [specLookup_length, (hwf.2 r hr).1]
      rcases copyRows_ok_or_mismatch specLookup_entries buf.Rows hlens with
        ⟨out, hout⟩ | ⟨t, ot, herr, _⟩
      · rw [hout]; simp
      · rw [herr]; simp
    · rw [bufferToStruct_unused_err hwf hm]
      simp

theorem bufferToStruct_no_out_of_range_witness :
    w4buf.WF ∧
    BufferToStruct (.strct w4fields) w4buf ≠ .error .outOfRange :=
  ⟨by decide,
    bufferToStruct_no_out_of_range w4buf (by decide) (.strct w4fields)⟩

def c7buf : Buffer :=
  ⟨["ID"], [⟨buildIndex ["ID"], [.vStr "x"]⟩], buildIndex ["ID"]⟩

def c7fields : List StructField := [⟨"ID", none, .tInt64⟩]

/-- C7 counterexample: the bound column `ID` holds a string while the
bound field is declared `int64`.  The call fails, but the failure (the
`reflect.Value.Set` assignability panic) records only the expected type
and the actual type; no field identifier appears in it, contrary to the
claim. -/
theorem bufferToStruct_type_mismatch_cex :
    BufferToStruct (.strct c7fields) c7buf =
      .error (.typeMismatch Ty.tInt64 (some Ty.tStr)) := by decide

/-- C7 amended: when some bound column's buffered value is not
assignable to its field's declared type, the value-copy step fails with
a type-mismatch failure carrying an expected type and a differing
actual type (no conversion is performed; the failure does not name the
field). -/
theorem bufferToStruct_type_mismatch_types_only (buf : Buffer)
    (hwf : buf.WF) (fields : List StructField)
    (lookup : List (Option Nat))
    (hb : bindingOf fields buf = .ok (lookup, []))
    (k : Nat) (row : Row) (c j : Nat) (sf : StructField) (v : Value)
    (hrow : buf.Rows[k]? = some row) (hl : lookup[c]? = some (some j))
    (hf : fields[j]? = some sf) (hv : row.Field[c]? = some v)
    (hne : v.ty? ≠ some sf.ty) :
    ∃ t ot, BufferToStruct (.strct fields) buf =
      .error (.typeMismatch t ot) ∧ ot ≠ some t := by
  have hbeq := bindingOf_eq hwf fields
  rw [hb] at hbeq
  have hpair :
      lookup = specLookup buf.Columns.length buf.columnNameIndex fields ∧
      ([] : List String) = specUnused buf.columnNameIndex fields := by
    have := Except.ok.inj hbeq
    exact ⟨congrArg Prod.fst this, congrArg Prod.snd this⟩
  obtain ⟨hlook, hm⟩ := hpair
  rw [bufferToStruct_strct_eq hwf hm.symm]
  have hlens : ∀ r ∈ buf.Rows,
      (specLookup buf.Columns.length buf.columnNameIndex
        fields).length ≤ r.Field.length := by
    intro r hr
    rw [specLookup_length, (hwf.2 r hr).1]
  rcases copyRows_ok_or_mismatch specLookup_entries buf.Rows hlens with
    ⟨out, hout⟩ | ⟨t, ot, herr, hneq⟩
  · exfalso
    obtain ⟨_, hget⟩ := copyRows_ok_get buf.Rows out hout
    obtain ⟨sv, hca, _⟩ := hget k row hrow
    rw [hlook] at hl
    obtain ⟨sf', v', hf', hv', hty'⟩ :=
      copyRowAux_ok_all_match _ 0 _ sv hca c j hl
    rw [Nat.zero_add] at hv'
    rw [hf] at hf'
    cases Option.some_inj.mp hf'
    rw [hv] at hv'
    cases Option.some_inj.mp hv'
    exact hne hty'
  · exact ⟨t, ot, herr, hneq⟩

theorem bufferToStruct_type_mismatch_types_only_witness :
    c7buf.WF ∧
    ∃ t ot, BufferToStruct (.strct c7fields) c7buf =
      .error (.typeMismatch t ot) ∧ ot ≠ some t :=
  ⟨by decide,
    bufferToStruct_type_mismatch_types_only c7buf (by decide) c7fields
      [some 0] (by decide) 0 ⟨buildIndex ["ID"], [.vStr "x"]⟩ 0 0
      ⟨"ID", none, .tInt64⟩ (.vStr "x") (by decide) (by decide)
      (by decide) (by decide) (by decide)⟩

theorem enumFrom_snd_mem {l : List α} :
    ∀ {i : Nat} {p : Nat × α}, p ∈ enumFrom i l → p.2 ∈ l := by
  induction l with
  | nil => intro i p h; simp [enumFrom] at h
  | cons a rest ih =>
    intro i p h
    rw [enumFrom] at h
    rcases List.mem_cons.mp h with h | h
    · subst h; exact List.mem_cons_self _ _
    · exact List.mem_cons_of_mem _ (ih h)

theorem bindFields_all_dash {colMap : List (String × Nat)} :
    ∀ (pairs : List (Nat × StructField)) (lookup : List (Option Nat))
      (missing : List String),
      (∀ p ∈ pairs, p.2.tag = some "-") →
      bindFields colMap pairs lookup missing = .ok (lookup, missing) := by
  intro pairs
  induction pairs with
  | nil => intro l m _; rw [bindFields]
  | cons p rest ih =>
    intro l m hall
    obtain ⟨i, sf⟩ := p
    rw [bindFields]
    have htag : sf.tag = some "-" := hall (i, sf) (List.mem_cons_self _ _)
    simp only [htag, if_pos]
    exact ih _ _ (fun q hq => hall q (List.mem_cons_of_mem _ hq))

def c8fields : List StructField := [⟨"ID", none, .tInt64⟩]

/-- C8 counterexample: a Table Buffer from a zero-record result set has
no columns, so reconciling it against the perfectly ordinary flat
struct `{ID int64}` does not return an empty sequence without error: it
fails with the unused-struct-fields report naming `ID`. -/
theorem bufferToStruct_empty_buffer_unused_error_cex :
    BufferToStruct (.strct c8fields) Buffer.empty =
      .error (.unusedStructFields ["ID"]) := by decide

/-- C8 amended: a zero-record result set still ingests to one Table
Buffer with empty columns and no rows; reconciling that empty buffer
yields the empty sequence with no error exactly when no field survives
binding: if every field carries the ignore sentinel (in particular a
target with no fields) the call returns the empty sequence, while any
target with at least one non-ignored field fails with the
unused-struct-fields error naming its unmatched fields. -/
theorem empty_ingestion_amended :
    (∀ colsRes, FillSet [⟨colsRes, []⟩] = ([Buffer.empty], none)) ∧
    (∀ fields : List StructField, (∀ sf ∈ fields, sf.tag = some "-") →
      BufferToStruct (.strct fields) Buffer.empty = .ok []) ∧
    ∀ fields : List StructField, (∃ sf ∈ fields, sf.tag ≠ some "-") →
      specUnused Buffer.empty.columnNameIndex fields ≠ [] ∧
      BufferToStruct (.strct fields) Buffer.empty =
        .error (.unusedStructFields
          (specUnused Buffer.empty.columnNameIndex fields)) := by
  refine ⟨?_, ?_, ?_⟩
  · intro colsRes
    rfl
  · intro fields hall
    rw [BufferToStruct, bindingOf]
    rw [bindFields_all_dash _ _ _
      (fun p hp => hall p.2 (enumFrom_snd_mem hp))]
    simp [copyRows, reportUnmatchedBuffer, Buffer.empty]
  · intro fields hex
    have hne : specUnused Buffer.empty.columnNameIndex fields ≠ [] := by
      obtain ⟨sf, hmem, htag⟩ := hex
      intro hnil
      rw [specUnused] at hnil
      have hcontra := List.forall_none_of_filterMap_eq_nil hnil sf hmem
      cases ht : sf.tag with
      | none =>
        simp [unusedOf, fieldDecision, ht, Buffer.empty, mapLookup]
          at hcontra
      | some t =>
        by_cases hd : t = "-"
        · exact htag (by rw [ht, hd])
        · simp [unusedOf, fieldDecision, ht, hd, Buffer.empty, mapLookup]
            at hcontra
    exact ⟨hne, bufferToStruct_unused_err (by decide) hne⟩

def w8fields : List StructField := [⟨"Ignored", some "-", .tStr⟩]

def w8bad : List StructField :=
  [⟨"ID", none, .tInt64⟩, ⟨"Skip", some "-", .tBool⟩]

theorem empty_ingestion_amended_witness :
    FillSet [⟨Except.ok ["ID"], []⟩] = ([Buffer.empty], none) ∧
    ((∀ sf ∈ w8fields, sf.tag = some "-") ∧
      BufferToStruct (.strct w8fields) Buffer.empty = .ok []) ∧
    (∃ sf ∈ w8bad, sf.tag ≠ some "-") ∧
    BufferToStruct (.strct w8bad) Buffer.empty =
      .error (.unusedStructFields
        (specUnused Buffer.empty.columnNameIndex w8bad)) :=
  ⟨empty_ingestion_amended.1 (Except.ok ["ID"]),
    ⟨by decide, (empty_ingestion_amended.2.1 w8fields (by decide))⟩,
    by decide, (empty_ingestion_amended.2.2 w8bad (by decide)).2⟩

def c9buf : Buffer :=
  ⟨["ID"], [⟨buildIndex ["ID"], [.vInt64 7]⟩], buildIndex ["ID"]⟩

/-- C9 counterexample: on a one-row table, requesting row `-1` of
column `ID` is out of range, yet the failure is the bare runtime
index-range panic, not the "no such row" error stating the available
count and the requested index. -/
theorem buffer_get_negative_index_cex :
    Buffer.Get c9buf (-1) "ID" = .error .outOfRange ∧
    Buffer.Get c9buf (-1) "ID" ≠ .error (.indexRow 1 (-1)) := by decide

/-- C9 amended: `Row.Get` yields the row's value at the column's
ordinal when the name is indexed and the "no such column" error naming
the column otherwise; `Buffer.Get` resolves the column first, reports
the "no such row" error (available count and requested index) exactly
for requested indexes at or beyond the row count, returns the value for
in-range indexes, and fails with a bare range panic — not the
"no such row" error — for negative indexes. -/
theorem get_lookup_semantics (buf : Buffer) (hwf : buf.WF)
    (name : String) :
    (mapLookup buf.columnNameIndex name = none →
      (∀ r ∈ buf.Rows, Row.Get r name = .error (.indexName name)) ∧
      ∀ rowIndex : Int, Buffer.Get buf rowIndex name =
        .error (.indexName name)) ∧
    ∀ i, mapLookup buf.columnNameIndex name = some i →
      (∀ r ∈ buf.Rows, ∃ v, r.Field[i]? = some v ∧ Row.Get r name = .ok v) ∧
      (∀ rowIndex : Int, (buf.Rows.length : Int) ≤ rowIndex →
        Buffer.Get buf rowIndex name =
          .error (.indexRow buf.Rows.length rowIndex)) ∧
      (∀ rowIndex : Int, rowIndex < 0 →
        Buffer.Get buf rowIndex name = .error .outOfRange) ∧
      ∀ rowIndex : Int, 0 ≤ rowIndex →
        rowIndex < (buf.Rows.length : Int) →
        ∃ row v, buf.Rows[rowIndex.toNat]? = some row ∧
          row.Field[i]? = some v ∧ Buffer.Get buf rowIndex name = .ok v := by
  constructor
  · intro hnone
    constructor
    · intro r hr
      simp only [Row.Get, (hwf.2 r hr).2, hnone]
    · intro rowIndex
      simp only [Buffer.Get, hnone]
  · intro i hsome
    have hi : i < buf.Columns.length := by
      rw [hwf.1] at hsome
      exact mapLookup_buildIndex_lt hsome
    refine ⟨?_, ?_, ?_, ?_⟩
    · intro r hr
      have hlen : i < r.Field.length := by
        rw [(hwf.2 r hr).1]
        exact hi
      refine ⟨r.Field[i], List.getElem?_eq_getElem hlen, ?_⟩
      simp only [Row.Get, (hwf.2 r hr).2, hsome,
        List.getElem?_eq_getElem hlen]
    · intro rowIndex hge
      simp only [Buffer.Get, hsome, if_pos hge]
    · intro rowIndex hneg
      have hnle : ¬((buf.Rows.length : Int) ≤ rowIndex) := by omega
      have h0 : ¬((0 : Int) ≤ rowIndex) := by omega
      simp only [Buffer.Get, hsome, if_neg hnle, if_neg h0]
    · intro rowIndex h0 hlt
      have hnle : ¬((buf.Rows.length : Int) ≤ rowIndex) := by omega
      have htn : rowIndex.toNat < buf.Rows.length := by omega
      have hmem : buf.Rows[rowIndex.toNat] ∈ buf.Rows :=
        List.getElem_mem htn
      have hlen : i < (buf.Rows[rowIndex.toNat]).Field.length := by
        rw [(hwf.2 _ hmem).1]
        exact hi
      refine ⟨buf.Rows[rowIndex.toNat], (buf.Rows[rowIndex.toNat]).Field[i],
        List.getElem?_eq_getElem htn, List.getElem?_eq_getElem hlen, ?_⟩
      simp only [Buffer.Get, hsome, if_neg hnle, if_pos h0,
        List.getElem?_eq_getElem htn, List.getElem?_eq_getElem hlen]

theorem get_lookup_semantics_witness :
    c9buf.WF ∧
    Buffer.Get c9buf 5 "ID" = .error (.indexRow 1 5) :=
  ⟨by decide,
    ((get_lookup_semantics c9buf (by decide) "ID").2 0
      (by decide)).2.1 5 (by decide)⟩
